import Mathlib

/-!
# RMG bootstrap (`Source/RMG/main.cpp`)

A shallow embedding of the launch-time code of the emulator front-end: the Qt
message handler, the platform configuration written to the process
environment, the command line handling and the start-up sequence of `main`.

Library calls (`QString::toInt`, `QCommandLineParser`, `getenv`/`setenv`,
`operator<<` on a C string) are embedded by their documented behaviour;
collaborators whose code lives elsewhere (the main window, the emulator core)
appear as recorded calls in a trace, their return values being inputs.
-/

namespace RMG

/-! ## Process environment -/

/-- The process environment: the value of every variable, `none` when unset. -/
abbrev Env := String → Option String

/-- `std::getenv`: a null pointer is `none`. -/
def getenv (env : Env) (name : String) : Option String := env name

/-- POSIX `setenv(name, value, overwrite)`: a variable that exists is left
alone unless `overwrite` is nonzero. -/
def setenv (env : Env) (name value : String) (overwrite : Bool) : Env :=
  fun n =>
    if n = name then
      match env name with
      | some old => if overwrite then some value else some old
      | none => some value
    else env n

/-! ## `QString::toInt` and the save state slot -/

/-- Whitespace skipped around a number by the C-locale integer conversion. -/
def isSpace (c : Char) : Bool :=
  c.toNat = 32 || (9 ≤ c.toNat && c.toNat ≤ 13)

/-- An ASCII decimal digit. -/
def isDigit (c : Char) : Bool :=
  48 ≤ c.toNat && c.toNat ≤ 57

/-- Value of a run of decimal digits, most significant first. -/
def digitsValue (ds : List Char) : Nat :=
  ds.foldl (fun acc c => 10 * acc + (c.toNat - 48)) 0

/-- Leading and trailing whitespace removed. -/
def trimmed (cs : List Char) : List Char :=
  ((cs.dropWhile isSpace).reverse.dropWhile isSpace).reverse

/-- The text after an optional sign, and whether the sign is a minus
(character 45 is `-`, character 43 is `+`). -/
def splitSign (cs : List Char) : Bool × List Char :=
  match cs with
  | [] => (false, [])
  | c :: rest =>
    if c = Char.ofNat 45 then (true, rest)
    else if c = Char.ofNat 43 then (false, rest)
    else (false, c :: rest)

/-- `QString::toInt(bool *ok)` in base 10: surrounding whitespace is ignored,
one sign is allowed, then at least one decimal digit and nothing else; the
value must fit a 32-bit `int`. The pair is `(*ok, result)`; a failed
conversion returns 0. -/
def QString.toInt (s : String) : Bool × Int :=
  let body := splitSign (trimmed s.data)
  if body.2.isEmpty || !body.2.all isDigit then (false, 0)
  else
    let v : Int := if body.1 then -(digitsValue body.2 : Int) else (digitsValue body.2 : Int)
    if -2147483648 ≤ v ∧ v ≤ 2147483647 then (true, v) else (false, 0)

/-- `QString::isEmpty`. -/
def QString.isEmpty (s : String) : Bool := s.data.isEmpty

/-- The slot `main` hands to `OpenROM`, computed from the raw value of
`--load-state-slot` (lines 139-143 of `main.cpp`). -/
def saveStateSlot (raw : String) : Int :=
  let parsed := QString.toInt raw
  let parsedNumber := parsed.1
  let saveStateSlot := parsed.2
  if QString.isEmpty raw || !parsedNumber || saveStateSlot < 0 || saveStateSlot > 9 then -1
  else saveStateSlot

/-! ## The Qt message handler -/

/-- Severity of a Qt log message (`QtMsgType`). -/
inductive QtMsgType
  | QtDebugMsg
  | QtWarningMsg
  | QtCriticalMsg
  | QtFatalMsg
  | QtInfoMsg
  deriving DecidableEq, Repr

/-- What `std::cerr << p` writes for the C string `p = localMsg.constData()`:
the characters before the first NUL. -/
def constData (localMsg : String) : String :=
  ⟨localMsg.data.takeWhile (fun c => c ≠ Char.ofNat 0)⟩

/-- The handler installed by `main` (lines 14-37). The result is what the call
appends to the error stream, `none` when the handler returns without writing.
`msg.toLocal8Bit()` keeps the text (UTF-8 is the local encoding). -/
def message_handler (env : Env) (type : QtMsgType) (msg : String) : Option String :=
  let localMsg := msg
  let showDebugQtMessages :=
    match getenv env "RMG_SHOW_DEBUG_QT_MESSAGES" with
    | none => false
    | some v => v == "1"
  match type with
  | .QtDebugMsg | .QtWarningMsg | .QtInfoMsg =>
    if !showDebugQtMessages then none
    else
      let typeString :=
        if type = .QtDebugMsg then "[QT DEBUG] "
        else if type = .QtWarningMsg then "[QT WARNING] " else "[QT INFO] "
      some (typeString ++ constData localMsg ++ "\n")
  | .QtCriticalMsg => some ("[QT CRITICAL] " ++ constData localMsg ++ "\n")
  | .QtFatalMsg => some ("[QT FATAL] " ++ constData localMsg ++ "\n")

/-- Debug, warning and informational messages. -/
def QtMsgType.isLow : QtMsgType → Bool
  | .QtDebugMsg => true
  | .QtWarningMsg => true
  | .QtInfoMsg => true
  | _ => false

/-- A message handler as Qt stores it: a function called for each message, in
the environment the process has at that moment. -/
abbrev QtMessageHandler := Env → QtMsgType → String → Option String

/-- The part of the process state the handler lives in: the environment, the
handler Qt currently holds and what has been written to the error stream. -/
structure Process where
  env : Env
  messageHandler : QtMessageHandler
  cerr : List String

/-- `qInstallMessageHandler(h)`: Qt stores the function; nothing is called. -/
def qInstallMessageHandler (h : QtMessageHandler) (p : Process) : Process :=
  { p with messageHandler := h }

/-- The environment changes to `env` (by `setenv`, `putenv` or `unsetenv`). -/
def Process.changeEnv (p : Process) (env : Env) : Process :=
  { p with env := env }

/-- Qt emits a log message: the installed handler runs. -/
def Process.qtMessage (p : Process) (type : QtMsgType) (msg : String) : Process :=
  match p.messageHandler p.env type msg with
  | none => p
  | some line => { p with cerr := p.cerr ++ [line] }

/-! ## `QCommandLineParser` -/

/-- Build-time switches of `main.cpp`. -/
structure Build where
  /-- `_WIN32` is defined. -/
  win32 : Bool
  /-- `PORTABLE_INSTALL` is defined. -/
  portable : Bool
  deriving DecidableEq, Repr

/-- A declared option: its names and, for an option that takes a value, the
name of that value (empty for a flag). -/
structure QCommandLineOption where
  names : List String
  valueName : String := ""
  deriving DecidableEq, Repr

/-- State of a `QCommandLineParser`: the declared options and what parsing
found. `optionValuesHash` lists (option offset, value) in order of appearance;
`pendingValue` is the option whose value is the next argument; `error` is set
once an argument was rejected. -/
structure QCommandLineParser where
  commandLineOptionList : List QCommandLineOption
  optionNames : List String := []
  unknownOptionNames : List String := []
  optionValuesHash : List (Nat × String) := []
  positionalArgumentList : List String := []
  forcePositional : Bool := false
  pendingValue : Option Nat := none
  error : Bool := false
  deriving DecidableEq, Repr

/-- Lookup in `nameHash`: the offset of the option that carries `name`. -/
def nameHashFind : List QCommandLineOption → String → Option Nat
  | [], _ => none
  | o :: os, name =>
    if o.names.contains name then some 0
    else (nameHashFind os name).map (fun k => k + 1)

/-- Whether the option at `offset` takes a value. -/
def withValue (opts : List QCommandLineOption) (offset : Nat) : Bool :=
  match opts.get? offset with
  | some o => !o.valueName.data.isEmpty
  | none => false

/-- `registerFoundOption`: a known name is recorded as found. -/
def registerFoundOption (p : QCommandLineParser) (optionName : String) :
    Bool × QCommandLineParser :=
  match nameHashFind p.commandLineOptionList optionName with
  | some _ => (true, { p with optionNames := p.optionNames ++ [optionName] })
  | none => (false, { p with unknownOptionNames := p.unknownOptionNames ++ [optionName] })

/-- The text after the first `=` (character 61) of an argument, `none`
without one. -/
def afterAssign : List Char → Option (List Char)
  | [] => none
  | c :: rest => if c = Char.ofNat 61 then some rest else afterAssign rest

/-- `parseOptionValue`: an option with a value takes it from behind the `=`
or from the next argument; a flag must not be given one. -/
def parseOptionValue (p : QCommandLineParser) (optionName : String) (argument : List Char) :
    QCommandLineParser :=
  match nameHashFind p.commandLineOptionList optionName with
  | none => p
  | some optionOffset =>
    if withValue p.commandLineOptionList optionOffset then
      match afterAssign argument with
      | none => { p with pendingValue := some optionOffset }
      | some v => { p with optionValuesHash := p.optionValuesHash ++ [(optionOffset, ⟨v⟩)] }
    else
      match afterAssign argument with
      | none => p
      | some _ => { p with error := true }

/-- The loop over the letters of a `-abc` argument (compacted short options).
Returns the parser, the last option name looked at and whether a value was
taken from the argument itself. -/
def parseShortOptions (p : QCommandLineParser) (optionName : String) :
    List Char → QCommandLineParser × String × Bool
  | [] => (p, optionName, false)
  | c :: rest =>
    let optionName := String.singleton c
    let found := registerFoundOption p optionName
    if !found.1 then parseShortOptions { found.2 with error := true } optionName rest
    else
      match nameHashFind p.commandLineOptionList optionName with
      | none => (found.2, optionName, false)
      | some optionOffset =>
        if withValue p.commandLineOptionList optionOffset then
          match rest with
          | [] => (found.2, optionName, false)
          | r :: rest2 =>
            let v := if r = Char.ofNat 61 then rest2 else r :: rest2
            ({ found.2 with optionValuesHash := found.2.optionValuesHash ++ [(optionOffset, ⟨v⟩)] },
              optionName, true)
        else if rest.head? = some (Char.ofNat 61) then (found.2, optionName, false)
        else parseShortOptions found.2 optionName rest

/-- One turn of the argument loop of `QCommandLineParserPrivate::parse`:
an argument is the value an option waits for, a positional argument (after
`--`, when it is `-` alone or does not start with `-`), a long option `--name`
or `--name=value`, or a group of short options (character 45 is `-`). -/
def parseArgument (p : QCommandLineParser) (argument : String) : QCommandLineParser :=
  match p.pendingValue with
  | some optionOffset =>
    { p with optionValuesHash := p.optionValuesHash ++ [(optionOffset, argument)],
             pendingValue := none }
  | none =>
    if p.forcePositional then
      { p with positionalArgumentList := p.positionalArgumentList ++ [argument] }
    else
      match argument.data with
      | [] => { p with positionalArgumentList := p.positionalArgumentList ++ [argument] }
      | c0 :: tail =>
        if c0 = Char.ofNat 45 then
          match tail with
          | [] => { p with positionalArgumentList := p.positionalArgumentList ++ [argument] }
          | c1 :: tail2 =>
            if c1 = Char.ofNat 45 then
              if tail2.isEmpty then { p with forcePositional := true }
              else
                let optionName : String := ⟨tail2.takeWhile (fun c => c ≠ Char.ofNat 61)⟩
                let found := registerFoundOption p optionName
                if found.1 then parseOptionValue found.2 optionName argument.data
                else { found.2 with error := true }
            else
              let r := parseShortOptions p "" (c1 :: tail2)
              if r.2.2 then r.1 else parseOptionValue r.1 r.2.1 argument.data
        else { p with positionalArgumentList := p.positionalArgumentList ++ [argument] }

/-- `QCommandLineParserPrivate::parse`: the executable name is skipped, the
other arguments are read in order; the result is false when the list is empty,
an argument was rejected or the last option still waits for its value. -/
def QCommandLineParser.parse (p : QCommandLineParser) (args : List String) :
    Bool × QCommandLineParser :=
  match args with
  | [] => (false, p)
  | _ :: rest =>
    let q := rest.foldl parseArgument p
    (!q.error && q.pendingValue.isNone, q)

/-- `QCommandLineParser::isSet(name)`: the name or one of its aliases was found. -/
def QCommandLineParser.isSet (p : QCommandLineParser) (name : String) : Bool :=
  p.optionNames.contains name ||
    (match nameHashFind p.commandLineOptionList name with
     | none => false
     | some offset =>
       match p.commandLineOptionList.get? offset with
       | none => false
       | some o => p.optionNames.any (fun n => o.names.contains n))

/-- `QCommandLineParser::value(name)`: the last value given, empty when there
is none (no option here has a default value). -/
def QCommandLineParser.value (p : QCommandLineParser) (name : String) : String :=
  match nameHashFind p.commandLineOptionList name with
  | none => ""
  | some offset =>
    ((p.optionValuesHash.filter (fun kv => kv.1 == offset)).map (fun kv => kv.2)).getLastD ""

/-- `QCommandLineParser::positionalArguments`. -/
def QCommandLineParser.positionalArguments (p : QCommandLineParser) : List String :=
  p.positionalArgumentList

/-- `QCommandLineParser::process`: a rejected command line ends the process
with `EXIT_FAILURE`, the version and help options end it with `EXIT_SUCCESS`;
otherwise control returns with the parsed state. -/
def QCommandLineParser.process (p : QCommandLineParser) (args : List String) :
    Except Int QCommandLineParser :=
  let r := p.parse args
  if !r.1 then .error 1
  else if r.2.isSet "version" then .error 0
  else if r.2.isSet "help" then .error 0
  else if r.2.isSet "help-all" then .error 0
  else .ok r.2

/-- The options `main` declares, in the order of the `addOption` calls
(lines 80-113); `addHelpOption` and `addVersionOption` come first. -/
def declaredOptions (b : Build) : List QCommandLineOption :=
  [ { names := if b.win32 then ["?", "h", "help"] else ["h", "help"] },
    { names := ["help-all"] },
    { names := ["v", "version"] } ] ++
  (if b.portable then []
   else
    [ { names := ["lib-path"], valueName := "path" },
      { names := ["core-path"], valueName := "path" },
      { names := ["plugin-path"], valueName := "path" },
      { names := ["shared-data-path"], valueName := "path" } ]) ++
  [ { names := ["d", "debug-messages"] },
    { names := ["f", "fullscreen"] },
    { names := ["n", "nogui"] },
    { names := ["q", "quit-after-emulation"] },
    { names := ["load-state-slot"], valueName := "Slot Number" },
    { names := ["disk"], valueName := "64DD Disk" } ]

/-! ## `main` -/

/-- What the collaborators answer when `main` calls them. -/
structure Collaborators where
  /-- `CoreGetPortableDirectoryMode()`. -/
  portableDirectoryMode : Bool
  /-- `app.applicationDirPath()`. -/
  applicationDirPath : String
  /-- `CoreGetVersion()`. -/
  coreVersion : String
  /-- `QGuiApplication::platformName()`. -/
  platformName : String
  /-- `window.Init(&app, showUI, launchROM)`. -/
  Init : Bool → Bool → Bool
  /-- `app.exec()`. -/
  exec : Int

/-- A call `main` makes on a collaborator, with its arguments (and, for
`Init` and `exec`, what the call returned). `windowShow` is `window.show()`. -/
inductive Event
  | qInstallMessageHandler
  | signal (sig : String)
  | setDefaultFormat (swapInterval majorVersion minorVersion : Nat)
  | setDesktopFileName (name : String)
  | setCurrent (dir : String)
  | setApplicationName (name : String)
  | setApplicationVersion (version : String)
  | CoreSetLibraryPathOverride (path : String)
  | CoreSetCorePathOverride (path : String)
  | CoreSetPluginPathOverride (path : String)
  | CoreSetSharedDataPathOverride (path : String)
  | CoreSetPrintDebugCallback (enabled : Bool)
  | CoreAddCallbackMessage (message : String)
  | Init (showUI launchROM : Bool) (result : Bool)
  | OpenROM (rom disk : String) (fullscreen quitAfterEmulation : Bool) (slot : Int)
  | windowShow
  | exec (result : Int)
  deriving DecidableEq, Repr

/-- Outcome of a run of `main`: the exit code of the process, the environment
it leaves and the collaborator calls in order. -/
structure Run where
  exitCode : Int
  env : Env
  trace : List Event

/-- The environment part of the platform configuration (lines 50-57). -/
def configurePlatform (env : Env) : Env :=
  let env1 :=
    match getenv env "RMG_WAYLAND" with
    | some wayland =>
      if wayland = "1" then setenv env "QT_QPA_PLATFORM" "wayland" true
      else setenv env "QT_QPA_PLATFORM" "xcb" true
    | none => setenv env "QT_QPA_PLATFORM" "xcb" true
  setenv env1 "QT_VULKAN_LIB" "libvulkan.so.1" false

/-- Collaborator calls up to the creation of the parser (lines 44-78). -/
def startupCalls (b : Build) (c : Collaborators) : List Event :=
  [Event.qInstallMessageHandler] ++
  (if b.win32 then []
   else [Event.signal "SIGINT", Event.signal "SIGTERM", Event.setDefaultFormat 0 3 3,
         Event.setDesktopFileName "com.github.Rosalie241.RMG"]) ++
  (if b.portable && c.portableDirectoryMode then [Event.setCurrent c.applicationDirPath] else []) ++
  [Event.setApplicationName "IceHace's Modded Mupen GUI",
   Event.setApplicationVersion c.coreVersion]

/-- The four path overrides (lines 118-127). -/
def pathOverrideCalls (b : Build) (parser : QCommandLineParser) : List Event :=
  if b.portable then []
  else
    let libPathOverride := parser.value "lib-path"
    let corePathOveride := parser.value "core-path"
    let pluginPathOverride := parser.value "plugin-path"
    let sharedDataPathOverride := parser.value "shared-data-path"
    (if !QString.isEmpty libPathOverride then [Event.CoreSetLibraryPathOverride libPathOverride]
     else []) ++
    (if !QString.isEmpty corePathOveride then [Event.CoreSetCorePathOverride corePathOveride]
     else []) ++
    (if !QString.isEmpty pluginPathOverride then
      [Event.CoreSetPluginPathOverride pluginPathOverride] else []) ++
    (if !QString.isEmpty sharedDataPathOverride then
      [Event.CoreSetSharedDataPathOverride sharedDataPathOverride] else [])

/-- The `OpenROM` call `main` makes for a parsed command line: none without a
positional argument, else one for the first of them. -/
def openROMCalls (parser : QCommandLineParser) : List Event :=
  match parser.positionalArguments with
  | [] => []
  | rom :: _ =>
    [Event.OpenROM rom (parser.value "disk") (parser.isSet "f") (parser.isSet "q")
      (saveStateSlot (parser.value "load-state-slot"))]

/-- The rest of `main` once `parser.process` has returned (lines 118-148):
the exit code and the collaborator calls. -/
def launch (b : Build) (c : Collaborators) (parser : QCommandLineParser) : Int × List Event :=
  let args := parser.positionalArguments
  let before :=
    pathOverrideCalls b parser ++
    [Event.CoreSetPrintDebugCallback (parser.isSet "d"),
     Event.CoreAddCallbackMessage ("Initializing on " ++ c.platformName)]
  let initResult := c.Init (!parser.isSet "n") (!args.isEmpty)
  let init := Event.Init (!parser.isSet "n") (!args.isEmpty) initResult
  if !initResult then (1, before ++ [init])
  else
    (c.exec, before ++ [init] ++ openROMCalls parser ++ [Event.windowShow, Event.exec c.exec])

/-- The parser `main` hands `app.arguments()` to. -/
def mainParser (b : Build) : QCommandLineParser :=
  { commandLineOptionList := declaredOptions b }

/-- `main(argc, argv)` started in environment `env`; `argv` is the whole
argument vector, `argv[0]` included, as `app.arguments()` returns it (options
that `QApplication` consumes itself, such as `-platform`, are taken to be
absent). A process ended by `parser.process` has made the calls up to it. -/
def main (b : Build) (c : Collaborators) (argv : List String) (env : Env) : Run :=
  let env1 := if b.win32 then env else configurePlatform env
  match (mainParser b).process argv with
  | .error code => { exitCode := code, env := env1, trace := startupCalls b c }
  | .ok parser =>
    let r := launch b c parser
    { exitCode := r.1, env := env1, trace := startupCalls b c ++ r.2 }

/-- A character that no decimal integer contains: neither a digit, nor a
sign, nor whitespace. -/
def isForeign (c : Char) : Bool :=
  !isDigit c && !isSpace c && c != Char.ofNat 45 && c != Char.ofNat 43

/-- The calls made before the command line is parsed. -/
def Event.isStartup : Event → Bool
  | .qInstallMessageHandler => true
  | .signal _ => true
  | .setDefaultFormat _ _ _ => true
  | .setDesktopFileName _ => true
  | .setCurrent _ => true
  | .setApplicationName _ => true
  | .setApplicationVersion _ => true
  | _ => false

/-- The four path override setters of the core. -/
def Event.isPathOverride : Event → Bool
  | .CoreSetLibraryPathOverride _ => true
  | .CoreSetCorePathOverride _ => true
  | .CoreSetPluginPathOverride _ => true
  | .CoreSetSharedDataPathOverride _ => true
  | _ => false

/-- A call of `window.OpenROM`. -/
def Event.isOpenROM : Event → Bool
  | .OpenROM _ _ _ _ _ => true
  | _ => false

/-- A call of `window.Init`. -/
def Event.isInit : Event → Bool
  | .Init _ _ _ => true
  | _ => false

/-- A call of `window.show` or `app.exec`. -/
def Event.isShowOrExec : Event → Bool
  | .windowShow => true
  | .exec _ => true
  | _ => false

/-- A call of `CoreSetLibraryPathOverride`. -/
def Event.isLibraryPathOverride : Event → Bool
  | .CoreSetLibraryPathOverride _ => true
  | _ => false

/-- A call of `CoreSetCorePathOverride`. -/
def Event.isCorePathOverride : Event → Bool
  | .CoreSetCorePathOverride _ => true
  | _ => false

/-- A call of `CoreSetPluginPathOverride`. -/
def Event.isPluginPathOverride : Event → Bool
  | .CoreSetPluginPathOverride _ => true
  | _ => false

/-- A call of `CoreSetSharedDataPathOverride`. -/
def Event.isSharedDataPathOverride : Event → Bool
  | .CoreSetSharedDataPathOverride _ => true
  | _ => false

/-! ## Vocabulary of the statements -/

/-- A collaborator set whose `Init` fails. -/
def failingInit : Collaborators :=
  { portableDirectoryMode := false, applicationDirPath := "", coreVersion := "", platformName := "xcb",
    Init := fun _ _ => false, exec := 0 }

/-- A collaborator set whose `Init` succeeds. -/
def workingInit : Collaborators :=
  { portableDirectoryMode := false, applicationDirPath := "", coreVersion := "", platformName := "xcb",
    Init := fun _ _ => true, exec := 0 }

/-- The positional arguments Qt finds in an argument vector (also when the
command line is rejected or asks for help). -/
def positionalArgumentsOf (b : Build) (argv : List String) : List String :=
  ((mainParser b).parse argv).2.positionalArguments

/-- The run of C7: the handler is installed in process `p`, the environment
then changes to `env2`, then Qt emits a message. -/
def installChangeEmit (p : Process) (env2 : Env) (type : QtMsgType) (msg : String) : Process :=
  ((qInstallMessageHandler message_handler p).changeEnv env2).qtMessage type msg

/-- An environment in which only `RMG_SHOW_DEBUG_QT_MESSAGES` is set. -/
def debugEnv (value : String) : Env :=
  fun n => if n = "RMG_SHOW_DEBUG_QT_MESSAGES" then some value else none

/-- Every value the parser holds, and the value it still waits for, belongs to
an option one of whose names was found on the command line. -/
def ValuesNamed (p : QCommandLineParser) : Prop :=
  (∀ kv ∈ p.optionValuesHash,
    ∃ n ∈ p.optionNames, nameHashFind p.commandLineOptionList n = some kv.1) ∧
  (∀ k, p.pendingValue = some k →
    ∃ n ∈ p.optionNames, nameHashFind p.commandLineOptionList n = some k)

/-- The name is among the found ones, or names no declared option. -/
def FoundOrUnknown (p : QCommandLineParser) (name : String) : Prop :=
  name ∈ p.optionNames ∨ nameHashFind p.commandLineOptionList name = none

/-- The four path override options of `main`. -/
inductive PathOverride
  | library
  | core
  | plugin
  | sharedData
  deriving DecidableEq, Repr

/-- The command line option of an override. -/
def PathOverride.optionName : PathOverride → String
  | .library => "lib-path"
  | .core => "core-path"
  | .plugin => "plugin-path"
  | .sharedData => "shared-data-path"

/-- The call of the setter of an override. -/
def PathOverride.setter : PathOverride → String → Event
  | .library => Event.CoreSetLibraryPathOverride
  | .core => Event.CoreSetCorePathOverride
  | .plugin => Event.CoreSetPluginPathOverride
  | .sharedData => Event.CoreSetSharedDataPathOverride

/-- Whether a call is a call of the setter of an override. -/
def PathOverride.isCall : PathOverride → Event → Bool
  | .library => Event.isLibraryPathOverride
  | .core => Event.isCorePathOverride
  | .plugin => Event.isPluginPathOverride
  | .sharedData => Event.isSharedDataPathOverride

/-! ## Integer conversion and slot normalisation -/

theorem mem_dropWhile_of_not {p : Char → Bool} {c : Char} (hc : p c = false) :
    ∀ l : List Char, c ∈ l → c ∈ l.dropWhile p := by
  intro l
  induction l with
  | nil => intro h; exact h
  | cons a l ih =>
    intro h
    by_cases ha : p a = true
    · rw [List.dropWhile_cons_of_pos ha]
      rcases List.mem_cons.mp h with rfl | h
      · rw [hc] at ha; exact absurd ha (by simp)
      · exact ih h
    · rw [List.dropWhile_cons_of_neg ha]; exact h

theorem mem_trimmed {c : Char} (hc : isSpace c = false) (l : List Char) (h : c ∈ l) :
    c ∈ trimmed l := by
  unfold trimmed
  exact List.mem_reverse.mpr
    (mem_dropWhile_of_not hc _ (List.mem_reverse.mpr (mem_dropWhile_of_not hc _ h)))

theorem mem_splitSign {c : Char} (h45 : c ≠ Char.ofNat 45) (h43 : c ≠ Char.ofNat 43)
    (l : List Char) (h : c ∈ l) : c ∈ (splitSign l).2 := by
  cases l with
  | nil => exact h
  | cons a l =>
    unfold splitSign
    by_cases ha : a = Char.ofNat 45
    · rcases List.mem_cons.mp h with rfl | h
      · exact absurd ha h45
      · simpa [ha] using h
    · by_cases hb : a = Char.ofNat 43
      · rcases List.mem_cons.mp h with rfl | h
        · exact absurd hb h43
        · simpa [ha, hb] using h
      · simpa [ha, hb] using h

theorem toInt_fails_of_foreign (s : String) (c : Char) (hmem : c ∈ s.data)
    (hc : isForeign c = true) : (QString.toInt s).1 = false := by
  simp only [isForeign, Bool.and_eq_true, Bool.not_eq_true', bne_iff_ne, ne_eq] at hc
  obtain ⟨⟨⟨hd, hs⟩, h45⟩, h43⟩ := hc
  have hin : c ∈ (splitSign (trimmed s.data)).2 :=
    mem_splitSign h45 h43 _ (mem_trimmed hs _ hmem)
  have hall : (splitSign (trimmed s.data)).2.all isDigit = false := by
    rw [List.all_eq_false]
    exact ⟨c, hin, by simp [hd]⟩
  simp [QString.toInt, hall]

theorem mem_of_mem_trimmed {c : Char} (l : List Char) (h : c ∈ trimmed l) : c ∈ l := by
  unfold trimmed at h
  have h1 := (List.dropWhile_sublist isSpace).subset (List.mem_reverse.mp h)
  exact (List.dropWhile_sublist isSpace).subset (List.mem_reverse.mp h1)

theorem mem_of_mem_splitSign {c : Char} (l : List Char) (h : c ∈ (splitSign l).2) : c ∈ l := by
  cases l with
  | nil => exact h
  | cons a l =>
    unfold splitSign at h
    by_cases ha : a = Char.ofNat 45
    · simp only [ha, if_true] at h
      exact List.mem_cons_of_mem _ h
    · by_cases hb : a = Char.ofNat 43
      · simp only [ha, hb, if_true, if_false] at h
        exact List.mem_cons_of_mem _ h
      · simpa [ha, hb] using h

theorem toInt_fails_of_no_digit (s : String) (h : ∀ c ∈ s.data, isDigit c = false) :
    (QString.toInt s).1 = false := by
  cases hb : (splitSign (trimmed s.data)).2 with
  | nil => simp [QString.toInt, hb]
  | cons a rest =>
    have ha : a ∈ s.data :=
      mem_of_mem_trimmed _ (mem_of_mem_splitSign _ (by rw [hb]; exact List.mem_cons_self a rest))
    have hall : (splitSign (trimmed s.data)).2.all isDigit = false := by
      rw [List.all_eq_false]
      exact ⟨a, by rw [hb]; exact List.mem_cons_self a rest, by simp [h a ha]⟩
    simp [QString.toInt, hall]

theorem saveStateSlot_of_not_parsed (s : String) (h : (QString.toInt s).1 = false) :
    saveStateSlot s = -1 := by
  simp [saveStateSlot, h]

theorem QString.isEmpty_iff (s : String) : QString.isEmpty s = true ↔ s = "" := by
  cases s with
  | mk data => cases data <;> simp [QString.isEmpty, String.ext_iff]

theorem saveStateSlot_cases (raw : String) :
    (saveStateSlot raw = -1 ∧
      (raw = "" ∨ (QString.toInt raw).1 = false ∨ (QString.toInt raw).2 < 0 ∨
        9 < (QString.toInt raw).2)) ∨
    (saveStateSlot raw = (QString.toInt raw).2 ∧ raw ≠ "" ∧ (QString.toInt raw).1 = true ∧
      0 ≤ (QString.toInt raw).2 ∧ (QString.toInt raw).2 ≤ 9) := by
  have hempty := QString.isEmpty_iff raw
  by_cases h1 : raw = ""
  · left
    exact ⟨by simp [saveStateSlot, hempty.mpr h1], Or.inl h1⟩
  · have h1b : QString.isEmpty raw = false := by
      cases hq : QString.isEmpty raw
      · rfl
      · exact absurd (hempty.mp hq) h1
    by_cases h2 : (QString.toInt raw).1 = true
    · by_cases h3 : (QString.toInt raw).2 < 0
      · left
        exact ⟨by simp [saveStateSlot, h3], Or.inr (Or.inr (Or.inl h3))⟩
      · by_cases h4 : 9 < (QString.toInt raw).2
        · left
          exact ⟨by simp [saveStateSlot, h4], Or.inr (Or.inr (Or.inr h4))⟩
        · right
          refine ⟨?_, h1, h2, by omega, by omega⟩
          simp [saveStateSlot, h1b, h2, h3, h4]
    · left
      have h2b : (QString.toInt raw).1 = false := by simpa using h2
      exact ⟨by simp [saveStateSlot, h2b], Or.inr (Or.inl h2b)⟩

/-! ## The parser: values belong to options that were found -/

theorem process_ok_eq (p parser : QCommandLineParser) (args : List String)
    (h : p.process args = .ok parser) : parser = (p.parse args).2 := by
  unfold QCommandLineParser.process at h
  simp only at h
  split at h
  · cases h
  · split at h
    · cases h
    · split at h
      · cases h
      · split at h
        · cases h
        · injection h with h; exact h.symm

theorem process_cons (p : QCommandLineParser) (prog : String) (rest : List String) :
    p.process (prog :: rest) = p.process ("" :: rest) := rfl

theorem registerFoundOption_spec (p : QCommandLineParser) (name : String) (hp : ValuesNamed p) :
    (registerFoundOption p name).2.commandLineOptionList = p.commandLineOptionList ∧
    ValuesNamed (registerFoundOption p name).2 ∧
    FoundOrUnknown (registerFoundOption p name).2 name ∧
    (∀ m, FoundOrUnknown p m → FoundOrUnknown (registerFoundOption p name).2 m) := by
  unfold registerFoundOption
  cases hn : nameHashFind p.commandLineOptionList name with
  | none =>
    refine ⟨rfl, ⟨hp.1, hp.2⟩, Or.inr hn, fun m hm => hm⟩
  | some k =>
    refine ⟨rfl, ⟨?_, ?_⟩, Or.inl (by simp), ?_⟩
    · intro kv hkv
      obtain ⟨n, hn1, hn2⟩ := hp.1 kv hkv
      exact ⟨n, by simp [hn1], hn2⟩
    · intro k2 hk2
      obtain ⟨n, hn1, hn2⟩ := hp.2 k2 hk2
      exact ⟨n, by simp [hn1], hn2⟩
    · intro m hm
      rcases hm with hm | hm
      · exact Or.inl (by simp [hm])
      · exact Or.inr hm

theorem parseOptionValue_spec (p : QCommandLineParser) (name : String) (argument : List Char)
    (hp : ValuesNamed p) (hname : FoundOrUnknown p name) :
    (parseOptionValue p name argument).commandLineOptionList = p.commandLineOptionList ∧
    (parseOptionValue p name argument).optionNames = p.optionNames ∧
    ValuesNamed (parseOptionValue p name argument) := by
  unfold parseOptionValue
  cases hn : nameHashFind p.commandLineOptionList name with
  | none => exact ⟨rfl, rfl, hp⟩
  | some k =>
    have hfound : ∃ n ∈ p.optionNames, nameHashFind p.commandLineOptionList n = some k := by
      rcases hname with h | h
      · exact ⟨name, h, hn⟩
      · rw [hn] at h; cases h
    simp only
    split
    · split
      · refine ⟨rfl, rfl, hp.1, ?_⟩
        intro k2 hk2
        simp only [Option.some.injEq] at hk2
        subst hk2
        exact hfound
      · refine ⟨rfl, rfl, ?_, hp.2⟩
        intro kv hkv
        simp only [List.mem_append, List.mem_singleton] at hkv
        rcases hkv with hkv | hkv
        · exact hp.1 kv hkv
        · subst hkv; exact hfound
    · split
      · exact ⟨rfl, rfl, hp⟩
      · exact ⟨rfl, rfl, hp.1, hp.2⟩

theorem parseShortOptions_spec (letters : List Char) :
    ∀ (p : QCommandLineParser) (last : String), ValuesNamed p → FoundOrUnknown p last →
      (parseShortOptions p last letters).1.commandLineOptionList = p.commandLineOptionList ∧
      ValuesNamed (parseShortOptions p last letters).1 ∧
      FoundOrUnknown (parseShortOptions p last letters).1 (parseShortOptions p last letters).2.1 := by
  induction letters with
  | nil => intro p last hp hl; exact ⟨rfl, hp, hl⟩
  | cons c rest ih =>
    intro p last hp _
    obtain ⟨ho, hv, hf, _⟩ := registerFoundOption_spec p (String.singleton c) hp
    simp only [parseShortOptions]
    split
    · have hv2 : ValuesNamed { (registerFoundOption p (String.singleton c)).2 with error := true } :=
        ⟨hv.1, hv.2⟩
      obtain ⟨h1, h2, h3⟩ := ih _ (String.singleton c) hv2 hf
      exact ⟨h1.trans ho, h2, h3⟩
    · split
      · exact ⟨ho, hv, hf⟩
      · rename_i k hk
        have hfound : ∃ n ∈ (registerFoundOption p (String.singleton c)).2.optionNames,
            nameHashFind (registerFoundOption p (String.singleton c)).2.commandLineOptionList n
              = some k := by
          rcases hf with h | h
          · exact ⟨_, h, by rw [ho]; exact hk⟩
          · rw [ho, hk] at h; cases h
        split
        · split
          · exact ⟨ho, hv, hf⟩
          · refine ⟨ho, ⟨?_, hv.2⟩, hf⟩
            intro kv hkv
            simp only [List.mem_append, List.mem_singleton] at hkv
            rcases hkv with hkv | hkv
            · exact hv.1 kv hkv
            · subst hkv; exact hfound
        · split
          · exact ⟨ho, hv, hf⟩
          · obtain ⟨h1, h2, h3⟩ := ih _ (String.singleton c) hv hf
            exact ⟨h1.trans ho, h2, h3⟩

theorem parseArgument_spec (p : QCommandLineParser) (argument : String) (hp : ValuesNamed p)
    (hempty : nameHashFind p.commandLineOptionList "" = none) :
    (parseArgument p argument).commandLineOptionList = p.commandLineOptionList ∧
    ValuesNamed (parseArgument p argument) := by
  unfold parseArgument
  split
  · rename_i k hk
    refine ⟨rfl, ?_, ?_⟩
    · intro kv hkv
      simp only [List.mem_append, List.mem_singleton] at hkv
      rcases hkv with hkv | hkv
      · exact hp.1 kv hkv
      · subst hkv; exact hp.2 k hk
    · intro k2 hk2; cases hk2
  · split
    · exact ⟨rfl, hp.1, hp.2⟩
    · split
      · exact ⟨rfl, hp.1, hp.2⟩
      · split
        · split
          · exact ⟨rfl, hp.1, hp.2⟩
          · split
            · split
              · exact ⟨rfl, hp.1, hp.2⟩
              · rename_i tail2 _ _ _
                obtain ⟨ho, hv, hf, _⟩ := registerFoundOption_spec p
                  ⟨tail2.takeWhile (fun c => c ≠ Char.ofNat 61)⟩ hp
                simp only
                split
                · obtain ⟨h1, _, h3⟩ := parseOptionValue_spec _ _ argument.data hv hf
                  exact ⟨h1.trans ho, h3⟩
                · exact ⟨ho, hv.1, hv.2⟩
            · rename_i c1 tail2 _ _
              obtain ⟨h1, h2, h3⟩ := parseShortOptions_spec (c1 :: tail2) p "" hp (Or.inr hempty)
              simp only
              split
              · exact ⟨h1, h2⟩
              · obtain ⟨g1, _, g3⟩ := parseOptionValue_spec _ _ argument.data h2 h3
                exact ⟨g1.trans h1, g3⟩
        · exact ⟨rfl, hp.1, hp.2⟩

theorem foldl_parseArgument_spec (args : List String) :
    ∀ p : QCommandLineParser, ValuesNamed p → nameHashFind p.commandLineOptionList "" = none →
      (args.foldl parseArgument p).commandLineOptionList = p.commandLineOptionList ∧
      ValuesNamed (args.foldl parseArgument p) := by
  induction args with
  | nil => intro p hp _; exact ⟨rfl, hp⟩
  | cons a rest ih =>
    intro p hp he
    obtain ⟨h1, h2⟩ := parseArgument_spec p a hp he
    obtain ⟨g1, g2⟩ := ih (parseArgument p a) h2 (by rw [h1]; exact he)
    exact ⟨g1.trans h1, g2⟩

theorem nameHashFind_get (opts : List QCommandLineOption) (name : String) :
    ∀ k, nameHashFind opts name = some k →
      ∃ o, opts.get? k = some o ∧ o.names.contains name = true := by
  induction opts with
  | nil => intro k h; cases h
  | cons o os ih =>
    intro k h
    unfold nameHashFind at h
    by_cases hc : o.names.contains name = true
    · rw [if_pos hc] at h
      injection h with h
      subst h
      exact ⟨o, rfl, hc⟩
    · rw [if_neg hc] at h
      cases hr : nameHashFind os name with
      | none => rw [hr] at h; cases h
      | some j =>
        rw [hr] at h
        injection h with h
        subst h
        obtain ⟨o2, h1, h2⟩ := ih j hr
        exact ⟨o2, by simpa using h1, h2⟩

theorem value_of_not_isSet (p : QCommandLineParser) (hp : ValuesNamed p) (name : String)
    (hset : p.isSet name = false) : p.value name = "" := by
  unfold QCommandLineParser.value
  cases hn : nameHashFind p.commandLineOptionList name with
  | none => rfl
  | some offset =>
    obtain ⟨o, ho1, _⟩ := nameHashFind_get _ _ _ hn
    have hnone : p.optionValuesHash.filter (fun kv => kv.1 == offset) = [] := by
      rw [List.filter_eq_nil_iff]
      intro kv hkv hk
      have hk2 : kv.1 = offset := by simpa using hk
      obtain ⟨n, hn1, hn2⟩ := hp.1 kv hkv
      rw [hk2] at hn2
      obtain ⟨o2, ho2, hc2⟩ := nameHashFind_get _ _ _ hn2
      rw [ho1] at ho2
      injection ho2 with ho2
      subst ho2
      have : p.isSet name = true := by
        unfold QCommandLineParser.isSet
        rw [hn]
        simp only [ho1, Bool.or_eq_true, List.any_eq_true]
        exact Or.inr ⟨n, hn1, hc2⟩
      rw [hset] at this
      cases this
    simp only [hnone]
    rfl

theorem mainParser_process_valuesNamed (b : Build) (argv : List String)
    (parser : QCommandLineParser) (h : (mainParser b).process argv = .ok parser) :
    ValuesNamed parser := by
  rw [process_ok_eq _ _ _ h]
  unfold QCommandLineParser.parse
  cases argv with
  | nil => exact ⟨fun kv hkv => absurd hkv (List.not_mem_nil kv), fun k hk => by cases hk⟩
  | cons prog rest =>
    have hempty : nameHashFind (mainParser b).commandLineOptionList "" = none := by
      obtain ⟨w, po⟩ := b
      cases w <;> cases po <;> decide
    exact (foldl_parseArgument_spec rest (mainParser b)
      ⟨fun kv hkv => absurd hkv (List.not_mem_nil kv), fun k hk => by cases hk⟩ hempty).2

/-- For a command line `main` accepted, an option that was not given has the
empty value. -/
theorem value_empty_of_not_given (b : Build) (argv : List String) (parser : QCommandLineParser)
    (h : (mainParser b).process argv = .ok parser) (name : String)
    (hset : parser.isSet name = false) : parser.value name = "" :=
  value_of_not_isSet parser (mainParser_process_valuesNamed b argv parser h) name hset

/-! ## Shape of the trace of `main` -/

theorem startupCalls_all_isStartup (b : Build) (c : Collaborators) :
    (startupCalls b c).all Event.isStartup = true := by
  obtain ⟨w, po⟩ := b
  cases w <;> cases po <;> cases hpd : c.portableDirectoryMode <;>
    simp [startupCalls, hpd, Event.isStartup]

theorem pathOverrideCalls_all_isPathOverride (b : Build) (parser : QCommandLineParser) :
    (pathOverrideCalls b parser).all Event.isPathOverride = true := by
  unfold pathOverrideCalls
  cases b.portable
  · cases QString.isEmpty (parser.value "lib-path") <;>
      cases QString.isEmpty (parser.value "core-path") <;>
      cases QString.isEmpty (parser.value "plugin-path") <;>
      cases QString.isEmpty (parser.value "shared-data-path") <;>
      simp [Event.isPathOverride]
  · rfl

theorem filter_startupCalls (b : Build) (c : Collaborators) (k : Event → Bool)
    (hk : ∀ e, e.isStartup = true → k e = false) : (startupCalls b c).filter k = [] := by
  rw [List.filter_eq_nil_iff]
  intro e he
  have := List.all_eq_true.mp (startupCalls_all_isStartup b c) e he
  simp [hk e this]

theorem filter_pathOverrideCalls (b : Build) (parser : QCommandLineParser) (k : Event → Bool)
    (hk : ∀ e, e.isPathOverride = true → k e = false) :
    (pathOverrideCalls b parser).filter k = [] := by
  rw [List.filter_eq_nil_iff]
  intro e he
  have := List.all_eq_true.mp (pathOverrideCalls_all_isPathOverride b parser) e he
  simp [hk e this]

theorem filter_openROMCalls (parser : QCommandLineParser) (k : Event → Bool)
    (hk : ∀ e, e.isOpenROM = true → k e = false) : (openROMCalls parser).filter k = [] := by
  unfold openROMCalls
  cases parser.positionalArguments with
  | nil => rfl
  | cons rom others => simp [hk _ (rfl : (Event.OpenROM rom _ _ _ _).isOpenROM = true)]

theorem main_of_exit (b : Build) (c : Collaborators) (argv : List String) (env : Env)
    (code : Int) (h : (mainParser b).process argv = .error code) :
    (main b c argv env).exitCode = code ∧ (main b c argv env).trace = startupCalls b c := by
  simp [main, h]

theorem main_of_init_failed (b : Build) (c : Collaborators) (argv : List String) (env : Env)
    (parser : QCommandLineParser) (h : (mainParser b).process argv = .ok parser)
    (hi : c.Init (!parser.isSet "n") (!parser.positionalArguments.isEmpty) = false) :
    (main b c argv env).exitCode = 1 ∧
    (main b c argv env).trace =
      startupCalls b c ++ (pathOverrideCalls b parser ++
        [Event.CoreSetPrintDebugCallback (parser.isSet "d"),
         Event.CoreAddCallbackMessage ("Initializing on " ++ c.platformName),
         Event.Init (!parser.isSet "n") (!parser.positionalArguments.isEmpty) false]) := by
  simp [main, h, launch, hi]

theorem main_of_init_ok (b : Build) (c : Collaborators) (argv : List String) (env : Env)
    (parser : QCommandLineParser) (h : (mainParser b).process argv = .ok parser)
    (hi : c.Init (!parser.isSet "n") (!parser.positionalArguments.isEmpty) = true) :
    (main b c argv env).exitCode = c.exec ∧
    (main b c argv env).trace =
      startupCalls b c ++ (pathOverrideCalls b parser ++
        ([Event.CoreSetPrintDebugCallback (parser.isSet "d"),
          Event.CoreAddCallbackMessage ("Initializing on " ++ c.platformName),
          Event.Init (!parser.isSet "n") (!parser.positionalArguments.isEmpty) true] ++
         (openROMCalls parser ++ [Event.windowShow, Event.exec c.exec]))) := by
  simp [main, h, launch, hi]

theorem main_env (b : Build) (c : Collaborators) (argv : List String) (env : Env) :
    (main b c argv env).env = if b.win32 then env else configurePlatform env := by
  unfold main
  cases (mainParser b).process argv <;> rfl

theorem filter_isOpenROM_of_exit (b : Build) (c : Collaborators) (argv : List String)
    (env : Env) (code : Int) (h : (mainParser b).process argv = .error code) :
    (main b c argv env).trace.filter Event.isOpenROM = [] := by
  rw [(main_of_exit b c argv env code h).2]
  exact filter_startupCalls b c _ (by intro e; cases e <;> simp [Event.isStartup, Event.isOpenROM])

theorem filter_isOpenROM_of_ok (b : Build) (c : Collaborators) (argv : List String)
    (env : Env) (parser : QCommandLineParser) (h : (mainParser b).process argv = .ok parser) :
    (main b c argv env).trace.filter Event.isOpenROM =
      if c.Init (!parser.isSet "n") (!parser.positionalArguments.isEmpty) = true
      then openROMCalls parser else [] := by
  have hs := filter_startupCalls b c Event.isOpenROM
    (by intro e; cases e <;> simp [Event.isStartup, Event.isOpenROM])
  have hp := filter_pathOverrideCalls b parser Event.isOpenROM
    (by intro e; cases e <;> simp [Event.isPathOverride, Event.isOpenROM])
  cases hi : c.Init (!parser.isSet "n") (!parser.positionalArguments.isEmpty)
  · rw [(main_of_init_failed b c argv env parser h hi).2]
    simp [List.filter_append, hs, hp, Event.isOpenROM]
  · rw [(main_of_init_ok b c argv env parser h hi).2]
    have ho : (openROMCalls parser).filter Event.isOpenROM = openROMCalls parser := by
      unfold openROMCalls
      cases parser.positionalArguments <;> simp [Event.isOpenROM]
    simp [List.filter_append, hs, hp, ho, Event.isOpenROM]

theorem filter_isInit_of_exit (b : Build) (c : Collaborators) (argv : List String)
    (env : Env) (code : Int) (h : (mainParser b).process argv = .error code) :
    (main b c argv env).trace.filter Event.isInit = [] := by
  rw [(main_of_exit b c argv env code h).2]
  exact filter_startupCalls b c _ (by intro e; cases e <;> simp [Event.isStartup, Event.isInit])

theorem filter_isInit_of_ok (b : Build) (c : Collaborators) (argv : List String)
    (env : Env) (parser : QCommandLineParser) (h : (mainParser b).process argv = .ok parser) :
    (main b c argv env).trace.filter Event.isInit =
      [Event.Init (!parser.isSet "n") (!parser.positionalArguments.isEmpty)
        (c.Init (!parser.isSet "n") (!parser.positionalArguments.isEmpty))] := by
  have hs := filter_startupCalls b c Event.isInit
    (by intro e; cases e <;> simp [Event.isStartup, Event.isInit])
  have hp := filter_pathOverrideCalls b parser Event.isInit
    (by intro e; cases e <;> simp [Event.isPathOverride, Event.isInit])
  cases hi : c.Init (!parser.isSet "n") (!parser.positionalArguments.isEmpty)
  · rw [(main_of_init_failed b c argv env parser h hi).2]
    simp [List.filter_append, hs, hp, Event.isInit]
  · rw [(main_of_init_ok b c argv env parser h hi).2]
    have ho := filter_openROMCalls parser Event.isInit
      (by intro e; cases e <;> simp [Event.isOpenROM, Event.isInit])
    simp [List.filter_append, hs, hp, ho, Event.isInit]

theorem filter_isCall_pathOverrideCalls (o : PathOverride) (b : Build)
    (parser : QCommandLineParser) (hb : b.portable = false) :
    (pathOverrideCalls b parser).filter o.isCall =
      if parser.value o.optionName = "" then [] else [o.setter (parser.value o.optionName)] := by
  simp only [← QString.isEmpty_iff]
  unfold pathOverrideCalls
  rw [hb]
  cases o <;>
    cases h1 : QString.isEmpty (parser.value "lib-path") <;>
    cases h2 : QString.isEmpty (parser.value "core-path") <;>
    cases h3 : QString.isEmpty (parser.value "plugin-path") <;>
    cases h4 : QString.isEmpty (parser.value "shared-data-path") <;>
    simp [h1, h2, h3, h4, PathOverride.isCall, PathOverride.optionName, PathOverride.setter,
      Event.isLibraryPathOverride, Event.isCorePathOverride, Event.isPluginPathOverride,
      Event.isSharedDataPathOverride, List.filter_cons]

theorem filter_isCall_of_ok (o : PathOverride) (b : Build) (c : Collaborators)
    (argv : List String) (env : Env) (parser : QCommandLineParser)
    (h : (mainParser b).process argv = .ok parser) :
    (main b c argv env).trace.filter o.isCall = (pathOverrideCalls b parser).filter o.isCall := by
  have hs := filter_startupCalls b c o.isCall (by
    intro e
    cases o <;> cases e <;>
      simp [Event.isStartup, PathOverride.isCall, Event.isLibraryPathOverride,
        Event.isCorePathOverride, Event.isPluginPathOverride, Event.isSharedDataPathOverride])
  cases hi : c.Init (!parser.isSet "n") (!parser.positionalArguments.isEmpty)
  · rw [(main_of_init_failed b c argv env parser h hi).2]
    simp only [List.filter_append, hs, List.nil_append]
    cases o <;>
      simp [PathOverride.isCall, Event.isLibraryPathOverride, Event.isCorePathOverride,
        Event.isPluginPathOverride, Event.isSharedDataPathOverride]
  · rw [(main_of_init_ok b c argv env parser h hi).2]
    have ho := filter_openROMCalls parser o.isCall (by
      intro e
      cases o <;> cases e <;>
        simp [Event.isOpenROM, PathOverride.isCall, Event.isLibraryPathOverride,
          Event.isCorePathOverride, Event.isPluginPathOverride, Event.isSharedDataPathOverride])
    simp only [List.filter_append, hs, ho, List.nil_append]
    cases o <;>
      simp [PathOverride.isCall, Event.isLibraryPathOverride, Event.isCorePathOverride,
        Event.isPluginPathOverride, Event.isSharedDataPathOverride]

/-! ## The handler -/

theorem constData_of_no_nul (msg : String) (h : Char.ofNat 0 ∉ msg.data) : constData msg = msg := by
  unfold constData
  have : msg.data.takeWhile (fun c => decide (c ≠ Char.ofNat 0)) = msg.data := by
    rw [List.takeWhile_eq_self_iff]
    intro c hc
    have : c ≠ Char.ofNat 0 := fun hc0 => h (hc0 ▸ hc)
    simpa using this
  rw [this]

theorem message_handler_low (env : Env) (type : QtMsgType) (msg : String)
    (hlow : type.isLow = true) :
    message_handler env type msg =
      if getenv env "RMG_SHOW_DEBUG_QT_MESSAGES" = some "1" then
        some ((if type = .QtDebugMsg then "[QT DEBUG] "
          else if type = .QtWarningMsg then "[QT WARNING] " else "[QT INFO] ") ++
          constData msg ++ "\n")
      else none := by
  cases hv : getenv env "RMG_SHOW_DEBUG_QT_MESSAGES" with
  | none => cases type <;> simp [QtMsgType.isLow] at hlow <;> simp [message_handler, hv]
  | some v =>
    by_cases h1 : v = "1"
    · cases type <;> simp [QtMsgType.isLow] at hlow <;> simp [message_handler, hv, h1]
    · cases type <;> simp [QtMsgType.isLow] at hlow <;> simp [message_handler, hv, h1]

/-! ## Save state slot -/

/-- C1: the raw slot values "", "-1", "10" and "9.5" are normalised to -1, and
so is every string that is not a number: every string the integer conversion
rejects, in particular every string holding a character that is neither a
digit, a sign nor whitespace, and every string without a digit. Each of "0" to
"9" is normalised to the integer it denotes. -/
theorem slot_normalisation_table :
    saveStateSlot "" = -1 ∧ saveStateSlot "-1" = -1 ∧ saveStateSlot "10" = -1 ∧
    saveStateSlot "9.5" = -1 ∧
    (∀ s : String, (QString.toInt s).1 = false → saveStateSlot s = -1) ∧
    (∀ s : String, (∃ c ∈ s.data, isForeign c = true) → saveStateSlot s = -1) ∧
    (∀ s : String, (∀ c ∈ s.data, isDigit c = false) → saveStateSlot s = -1) ∧
    saveStateSlot "0" = 0 ∧ saveStateSlot "1" = 1 ∧ saveStateSlot "2" = 2 ∧
    saveStateSlot "3" = 3 ∧ saveStateSlot "4" = 4 ∧ saveStateSlot "5" = 5 ∧
    saveStateSlot "6" = 6 ∧ saveStateSlot "7" = 7 ∧ saveStateSlot "8" = 8 ∧
    saveStateSlot "9" = 9 := by
  refine ⟨by decide, by decide, by decide, by decide, saveStateSlot_of_not_parsed, ?_,
    fun s h => saveStateSlot_of_not_parsed s (toInt_fails_of_no_digit s h), by decide, by decide, by decide, by decide, by decide, by decide, by decide, by decide,
    by decide, by decide⟩
  rintro s ⟨c, hmem, hc⟩
  exact saveStateSlot_of_not_parsed s (toInt_fails_of_foreign s c hmem hc)

/-- C1 at the non-numeric string "abc". -/
theorem slot_normalisation_table_witness : saveStateSlot "abc" = -1 :=
  slot_normalisation_table.2.2.2.2.2.1 "abc" ⟨Char.ofNat 97, by decide, by decide⟩

/-- C2: whatever the raw `--load-state-slot` string is, the normalised slot is
-1 or lies in 0..9; it is -1 exactly when the string is empty, the integer
conversion fails, or the integer is below 0 or above 9, and in every other
case it is the converted integer. Every slot that a run of `main` passes to
`OpenROM` is the normalised slot of the option value, hence -1 or in 0..9, and
for an absent option the normalised slot is -1. -/
theorem slot_domain :
    (∀ raw : String,
      (saveStateSlot raw = -1 ∨ (0 ≤ saveStateSlot raw ∧ saveStateSlot raw ≤ 9)) ∧
      (saveStateSlot raw = -1 ↔
        (raw = "" ∨ (QString.toInt raw).1 = false ∨ (QString.toInt raw).2 < 0 ∨
          9 < (QString.toInt raw).2)) ∧
      (saveStateSlot raw ≠ -1 → saveStateSlot raw = (QString.toInt raw).2)) ∧
    (∀ (b : Build) (c : Collaborators) (argv : List String) (env : Env) (rom disk : String)
      (f q : Bool) (slot : Int),
      Event.OpenROM rom disk f q slot ∈ (main b c argv env).trace →
        (slot = -1 ∨ (0 ≤ slot ∧ slot ≤ 9)) ∧
        ∃ parser, (mainParser b).process argv = .ok parser ∧
          slot = saveStateSlot (parser.value "load-state-slot")) ∧
    (∀ (b : Build) (argv : List String) (parser : QCommandLineParser),
      (mainParser b).process argv = .ok parser → parser.isSet "load-state-slot" = false →
        saveStateSlot (parser.value "load-state-slot") = -1) := by
  have hraw : ∀ raw : String,
      (saveStateSlot raw = -1 ∨ (0 ≤ saveStateSlot raw ∧ saveStateSlot raw ≤ 9)) ∧
      (saveStateSlot raw = -1 ↔
        (raw = "" ∨ (QString.toInt raw).1 = false ∨ (QString.toInt raw).2 < 0 ∨
          9 < (QString.toInt raw).2)) ∧
      (saveStateSlot raw ≠ -1 → saveStateSlot raw = (QString.toInt raw).2) := by
    intro raw
    rcases saveStateSlot_cases raw with ⟨h1, h2⟩ | ⟨h1, h2, h3, h4, h5⟩
    · exact ⟨Or.inl h1, ⟨fun _ => h2, fun _ => h1⟩, fun hne => absurd h1 hne⟩
    · refine ⟨Or.inr (by omega), ⟨fun h => ?_, fun h => ?_⟩, fun _ => h1⟩
      · omega
      · rcases h with h | h | h | h
        · exact absurd h h2
        · rw [h3] at h; exact absurd h (by simp)
        · omega
        · omega
  refine ⟨hraw, ?_, ?_⟩
  case refine_2 =>
    intro b argv parser hp hset
    rw [value_empty_of_not_given b argv parser hp _ hset]
    decide
  intro b c argv env rom disk f q slot hmem
  have hf : Event.OpenROM rom disk f q slot ∈ (main b c argv env).trace.filter Event.isOpenROM :=
    List.mem_filter.mpr ⟨hmem, rfl⟩
  cases hp : (mainParser b).process argv with
  | error code =>
    rw [filter_isOpenROM_of_exit b c argv env code hp] at hf
    exact absurd hf (List.not_mem_nil _)
  | ok parser =>
    rw [filter_isOpenROM_of_ok b c argv env parser hp] at hf
    have hslot : slot = saveStateSlot (parser.value "load-state-slot") := by
      split at hf
      · unfold openROMCalls at hf
        split at hf
        · exact absurd hf (List.not_mem_nil _)
        · simp only [List.mem_singleton, Event.OpenROM.injEq] at hf
          exact hf.2.2.2.2
      · exact absurd hf (List.not_mem_nil _)
    exact ⟨hslot ▸ (hraw _).1, parser, rfl, hslot⟩

/-- C2 on the run `RMG game.rom --load-state-slot 12`: the request carries
slot -1. -/
theorem slot_domain_witness :
    Event.OpenROM "game.rom" "" false false (-1) ∈
        (main ⟨false, false⟩ workingInit ["RMG", "game.rom", "--load-state-slot", "12"]
          (fun _ => none)).trace ∧
      ((-1 : Int) = -1 ∨ (0 ≤ (-1 : Int) ∧ (-1 : Int) ≤ 9)) :=
  ⟨by decide, (slot_domain.2.1 ⟨false, false⟩ workingInit
    ["RMG", "game.rom", "--load-state-slot", "12"] (fun _ => none) "game.rom" "" false false (-1)
    (by decide)).1⟩

/-! ## Start-up sequence -/

/-- C3: in every build, for every argument vector and environment, when the
call of `Init` returns false, `main` returns 1, no `OpenROM` request occurs in
the run, the window is not shown, the event loop is not entered, and the call
of `Init` is the last thing the run does. -/
theorem init_failure_exits (b : Build) (c : Collaborators) (argv : List String) (env : Env)
    (showUI launchROM : Bool)
    (h : Event.Init showUI launchROM false ∈ (main b c argv env).trace) :
    (main b c argv env).exitCode = 1 ∧
    (main b c argv env).trace.filter Event.isOpenROM = [] ∧
    (main b c argv env).trace.filter Event.isShowOrExec = [] ∧
    (main b c argv env).trace.getLast? = some (Event.Init showUI launchROM false) := by
  have hf : Event.Init showUI launchROM false ∈ (main b c argv env).trace.filter Event.isInit :=
    List.mem_filter.mpr ⟨h, rfl⟩
  cases hp : (mainParser b).process argv with
  | error code =>
    rw [filter_isInit_of_exit b c argv env code hp] at hf
    exact absurd hf (List.not_mem_nil _)
  | ok parser =>
    rw [filter_isInit_of_ok b c argv env parser hp] at hf
    simp only [List.mem_singleton, Event.Init.injEq] at hf
    obtain ⟨h1, h2, h3⟩ := hf
    have hi := h3.symm
    have hs := filter_startupCalls b c Event.isShowOrExec
      (by intro e; cases e <;> simp [Event.isStartup, Event.isShowOrExec])
    have hpo := filter_pathOverrideCalls b parser Event.isShowOrExec
      (by intro e; cases e <;> simp [Event.isPathOverride, Event.isShowOrExec])
    refine ⟨(main_of_init_failed b c argv env parser hp hi).1, ?_, ?_, ?_⟩
    · rw [filter_isOpenROM_of_ok b c argv env parser hp, hi]; simp
    · rw [(main_of_init_failed b c argv env parser hp hi).2]
      simp [List.filter_append, hs, hpo, Event.isShowOrExec]
    · rw [(main_of_init_failed b c argv env parser hp hi).2, h1, h2]
      simp [List.getLast?_append]

/-- C3 on the run `RMG game.rom` with a failing `Init`. -/
theorem init_failure_exits_witness :
    Event.Init true true false ∈
        (main ⟨false, false⟩ failingInit ["RMG", "game.rom"] (fun _ => none)).trace ∧
      (main ⟨false, false⟩ failingInit ["RMG", "game.rom"] (fun _ => none)).exitCode = 1 :=
  ⟨by decide, (init_failure_exits ⟨false, false⟩ failingInit ["RMG", "game.rom"] (fun _ => none)
    true true (by decide)).1⟩

/-- C4: when `parser.process` returns with at least one positional argument
and `Init` succeeds, the run contains exactly one `OpenROM` request, for the
first positional argument, with the `--disk` value (empty when the option is
not given), the fullscreen and quit-after-emulation flags and the normalised
slot. In particular, for the arguments
`"game.rom", "--load-state-slot", "3", "-f"` behind the program name (whatever
it is), in every build the one request is for `game.rom` and has slot 3,
fullscreen set, quit-after-emulation unset and an empty disk path. -/
theorem openROM_request :
    (∀ (b : Build) (c : Collaborators) (argv : List String) (env : Env)
      (parser : QCommandLineParser) (rom : String) (others : List String),
      (mainParser b).process argv = .ok parser →
      parser.positionalArguments = rom :: others →
      c.Init (!parser.isSet "n") true = true →
      (main b c argv env).trace.filter Event.isOpenROM =
        [Event.OpenROM rom (parser.value "disk") (parser.isSet "f") (parser.isSet "q")
          (saveStateSlot (parser.value "load-state-slot"))] ∧
      (parser.isSet "disk" = false → parser.value "disk" = "")) ∧
    (∀ (b : Build) (c : Collaborators) (prog : String) (env : Env),
      c.Init true true = true →
      (main b c [prog, "game.rom", "--load-state-slot", "3", "-f"] env).trace.filter
          Event.isOpenROM =
        [Event.OpenROM "game.rom" "" true false 3]) := by
  have general : ∀ (b : Build) (c : Collaborators) (argv : List String) (env : Env)
      (parser : QCommandLineParser) (rom : String) (others : List String),
      (mainParser b).process argv = .ok parser →
      parser.positionalArguments = rom :: others →
      c.Init (!parser.isSet "n") true = true →
      (main b c argv env).trace.filter Event.isOpenROM =
        [Event.OpenROM rom (parser.value "disk") (parser.isSet "f") (parser.isSet "q")
          (saveStateSlot (parser.value "load-state-slot"))] ∧
      (parser.isSet "disk" = false → parser.value "disk" = "") := by
    intro b c argv env parser rom others hp hpos hi
    refine ⟨?_, value_empty_of_not_given b argv parser hp "disk"⟩
    rw [filter_isOpenROM_of_ok b c argv env parser hp]
    simp [hpos, hi, openROMCalls]
  refine ⟨general, ?_⟩
  intro b c prog env hi
  have hparse : ∃ parser, (mainParser b).process ["", "game.rom", "--load-state-slot", "3", "-f"]
        = .ok parser ∧ parser.positionalArguments = ["game.rom"] ∧ parser.isSet "n" = false ∧
        parser.value "disk" = "" ∧ parser.isSet "f" = true ∧ parser.isSet "q" = false ∧
        parser.value "load-state-slot" = "3" := by
    obtain ⟨w, po⟩ := b
    cases w <;> cases po <;> exact ⟨_, rfl, by decide⟩
  obtain ⟨parser, hp, hpos, hn, hdisk, hf, hq, hslot⟩ := hparse
  rw [← process_cons _ prog] at hp
  have := (general b c _ env parser "game.rom" [] hp hpos (by rw [hn]; exact hi)).1
  rw [this, hdisk, hf, hq, hslot]
  rfl

/-- C4 on the run `RMG game.rom --load-state-slot 3 -f`. -/
theorem openROM_request_witness :
    workingInit.Init true true = true ∧
    (main ⟨false, false⟩ workingInit ["RMG", "game.rom", "--load-state-slot", "3", "-f"]
        (fun _ => none)).trace.filter Event.isOpenROM =
      [Event.OpenROM "game.rom" "" true false 3] :=
  ⟨rfl, openROM_request.2 ⟨false, false⟩ workingInit "RMG" (fun _ => none) rfl⟩

/-- C5: for every argument vector without a positional argument, in every
build, environment and whatever `Init` answers, the run contains no `OpenROM`
request and every call of `Init` in it has `launchROM = false`; whenever
`parser.process` returns, `Init` is called exactly once, with
`launchROM = false`. -/
theorem no_rom_no_openROM (b : Build) (c : Collaborators) (argv : List String) (env : Env)
    (h : positionalArgumentsOf b argv = []) :
    (main b c argv env).trace.filter Event.isOpenROM = [] ∧
    (∀ showUI launchROM result,
      Event.Init showUI launchROM result ∈ (main b c argv env).trace → launchROM = false) ∧
    (∀ parser, (mainParser b).process argv = .ok parser →
      (main b c argv env).trace.filter Event.isInit =
        [Event.Init (!parser.isSet "n") false (c.Init (!parser.isSet "n") false)]) := by
  have hpos : ∀ parser, (mainParser b).process argv = .ok parser →
      parser.positionalArguments = [] := by
    intro parser hp
    rw [process_ok_eq _ _ _ hp]
    exact h
  have hinit : ∀ parser, (mainParser b).process argv = .ok parser →
      (main b c argv env).trace.filter Event.isInit =
        [Event.Init (!parser.isSet "n") false (c.Init (!parser.isSet "n") false)] := by
    intro parser hp
    rw [filter_isInit_of_ok b c argv env parser hp, hpos parser hp]
    rfl
  refine ⟨?_, ?_, hinit⟩
  · cases hp : (mainParser b).process argv with
    | error code => exact filter_isOpenROM_of_exit b c argv env code hp
    | ok parser =>
      rw [filter_isOpenROM_of_ok b c argv env parser hp]
      simp [openROMCalls, hpos parser hp]
  · intro showUI launchROM result hmem
    have hf : Event.Init showUI launchROM result ∈
        (main b c argv env).trace.filter Event.isInit := List.mem_filter.mpr ⟨hmem, rfl⟩
    cases hp : (mainParser b).process argv with
    | error code =>
      rw [filter_isInit_of_exit b c argv env code hp] at hf
      exact absurd hf (List.not_mem_nil _)
    | ok parser =>
      rw [hinit parser hp] at hf
      simp only [List.mem_singleton, Event.Init.injEq] at hf
      exact hf.2.1

/-- C5 on the run `RMG --load-state-slot 3 --disk d.ndd -f -q`. -/
theorem no_rom_no_openROM_witness :
    positionalArgumentsOf ⟨false, false⟩
        ["RMG", "--load-state-slot", "3", "--disk", "d.ndd", "-f", "-q"] = [] ∧
    (main ⟨false, false⟩ workingInit
        ["RMG", "--load-state-slot", "3", "--disk", "d.ndd", "-f", "-q"]
        (fun _ => none)).trace.filter Event.isOpenROM = [] :=
  ⟨by decide, (no_rom_no_openROM ⟨false, false⟩ workingInit
    ["RMG", "--load-state-slot", "3", "--disk", "d.ndd", "-f", "-q"] (fun _ => none)
    (by decide)).1⟩

/-! ## Message filtering -/

/-- C6, as stated, fails: the text of a critical message is written only up
to its first NUL character, so for the text "a", NUL, "b" the line written is
the tag followed by "a", which does not start with the tag followed by the
message text. -/
theorem critical_text_cut_at_nul :
    message_handler (fun _ => none) .QtCriticalMsg "a\x00b" = some "[QT CRITICAL] a\n" ∧
    List.isPrefixOf ("[QT CRITICAL] " ++ "a\x00b" : String).data
      ("[QT CRITICAL] a\n" : String).data = false := by
  decide

/-- C6, amended: for every message text and every environment, a debug,
warning or informational message is written if and only if
`RMG_SHOW_DEBUG_QT_MESSAGES` is exactly "1", and is then the tag of its
severity, the text and a newline; a critical or fatal message is always
written, as "[QT CRITICAL] " or "[QT FATAL] ", the text and a newline. The
text is written as a C string, up to its first NUL character: whole when it
holds none. -/
theorem message_handler_policy (env : Env) (type : QtMsgType) (msg : String) :
    (type.isLow = true →
      ((message_handler env type msg).isSome = true ↔
        getenv env "RMG_SHOW_DEBUG_QT_MESSAGES" = some "1")) ∧
    (type.isLow = true → getenv env "RMG_SHOW_DEBUG_QT_MESSAGES" = some "1" →
      message_handler env type msg =
        some ((if type = .QtDebugMsg then "[QT DEBUG] "
          else if type = .QtWarningMsg then "[QT WARNING] " else "[QT INFO] ") ++
          constData msg ++ "\n")) ∧
    (type = .QtCriticalMsg →
      message_handler env type msg = some ("[QT CRITICAL] " ++ constData msg ++ "\n")) ∧
    (type = .QtFatalMsg →
      message_handler env type msg = some ("[QT FATAL] " ++ constData msg ++ "\n")) ∧
    (Char.ofNat 0 ∉ msg.data → constData msg = msg) := by
  refine ⟨?_, ?_, ?_, ?_, constData_of_no_nul msg⟩
  · intro hlow
    rw [message_handler_low env type msg hlow]
    by_cases h : getenv env "RMG_SHOW_DEBUG_QT_MESSAGES" = some "1" <;> simp [h]
  · intro hlow h
    rw [message_handler_low env type msg hlow, if_pos h]
  · intro h; subst h; rfl
  · intro h; subst h; rfl

/-- C6 amended, on a warning while `RMG_SHOW_DEBUG_QT_MESSAGES` is "true". -/
theorem message_handler_policy_witness :
    (message_handler (fun _ => some "true") .QtWarningMsg "slow frame").isSome = false := by
  have h := (message_handler_policy (fun _ => some "true") .QtWarningMsg "slow frame").1 rfl
  cases hs : (message_handler (fun _ => some "true") .QtWarningMsg "slow frame").isSome
  · rfl
  · exact absurd (h.mp hs) (by decide)

/-- C7, as stated, fails: a handler installed while the variable is "1" drops
a debug message once the variable has become "0", and a handler installed
while it is "0" forwards the message once it has become "1". -/
theorem policy_follows_later_value :
    (installChangeEmit ⟨debugEnv "1", fun _ _ _ => none, []⟩ (debugEnv "0")
      .QtDebugMsg "x").cerr = [] ∧
    (installChangeEmit ⟨debugEnv "0", fun _ _ _ => none, []⟩ (debugEnv "1")
      .QtDebugMsg "x").cerr = ["[QT DEBUG] x\n"] := by
  decide

/-- C7, amended: the handler reads `RMG_SHOW_DEBUG_QT_MESSAGES` each time a
message arrives. When it is installed under one environment and the
environment changes before a debug, warning or informational message arrives,
the message is forwarded if and only if the value at arrival is exactly "1";
the value at install time has no effect. -/
theorem policy_read_per_message (p : Process) (env2 : Env) (type : QtMsgType) (msg : String)
    (hlow : type.isLow = true) :
    ((installChangeEmit p env2 type msg).cerr ≠ p.cerr ↔
      getenv env2 "RMG_SHOW_DEBUG_QT_MESSAGES" = some "1") ∧
    (installChangeEmit p env2 type msg).cerr =
      p.cerr ++ (message_handler env2 type msg).toList ∧
    (∀ p1 : Process, p1.cerr = p.cerr →
      (installChangeEmit p1 env2 type msg).cerr = (installChangeEmit p env2 type msg).cerr) := by
  have hcerr : ∀ q : Process, (installChangeEmit q env2 type msg).cerr =
      q.cerr ++ (message_handler env2 type msg).toList := by
    intro q
    unfold installChangeEmit Process.qtMessage Process.changeEnv qInstallMessageHandler
    cases hm : message_handler env2 type msg <;> simp [hm]
  refine ⟨?_, hcerr p, ?_⟩
  · rw [hcerr p, message_handler_low env2 type msg hlow]
    by_cases h : getenv env2 "RMG_SHOW_DEBUG_QT_MESSAGES" = some "1" <;> simp [h]
  · intro p1 h1
    rw [hcerr p1, hcerr p, h1]

/-- C7 amended, on a handler installed under "1" and a message under "0". -/
theorem policy_read_per_message_witness :
    QtMsgType.QtInfoMsg.isLow = true ∧
    ((installChangeEmit ⟨debugEnv "1", fun _ _ _ => none, []⟩ (debugEnv "0")
        .QtInfoMsg "x").cerr ≠ [] ↔
      getenv (debugEnv "0") "RMG_SHOW_DEBUG_QT_MESSAGES" = some "1") :=
  ⟨rfl, (policy_read_per_message ⟨debugEnv "1", fun _ _ _ => none, []⟩ (debugEnv "0")
    .QtInfoMsg "x" rfl).1⟩

/-! ## Platform configuration and path overrides -/

/-- C8: for every initial environment, after the platform configuration
`QT_QPA_PLATFORM` is "wayland" if and only if `RMG_WAYLAND` is set to exactly
"1", and is "xcb" in every other case, whatever `QT_QPA_PLATFORM` held before;
this is the environment every run of `main` leaves in a build that has the
platform configuration (`_WIN32` undefined). -/
theorem backend_selection (env : Env) :
    (getenv (configurePlatform env) "QT_QPA_PLATFORM" = some "wayland" ↔
      getenv env "RMG_WAYLAND" = some "1") ∧
    (getenv env "RMG_WAYLAND" ≠ some "1" →
      getenv (configurePlatform env) "QT_QPA_PLATFORM" = some "xcb") ∧
    (∀ (b : Build) (c : Collaborators) (argv : List String), b.win32 = false →
      (main b c argv env).env = configurePlatform env) := by
  have key : getenv (configurePlatform env) "QT_QPA_PLATFORM" =
      some (if getenv env "RMG_WAYLAND" = some "1" then "wayland" else "xcb") := by
    unfold configurePlatform
    cases hw : getenv env "RMG_WAYLAND" with
    | none =>
      cases hq : env "QT_QPA_PLATFORM" <;> simp [setenv, getenv, hq]
    | some v =>
      by_cases hv : v = "1"
      · cases hq : env "QT_QPA_PLATFORM" <;> simp [setenv, getenv, hq, hv]
      · cases hq : env "QT_QPA_PLATFORM" <;> simp [setenv, getenv, hq, hv]
  refine ⟨?_, ?_, ?_⟩
  · rw [key]
    by_cases h : getenv env "RMG_WAYLAND" = some "1"
    · simp [h]
    · simp [h]
  · intro h
    rw [key]
    simp [h]
  · intro b c argv hb
    rw [main_env, hb]
    rfl

/-- C8 on an environment with `RMG_WAYLAND=0` and `QT_QPA_PLATFORM=wayland`. -/
theorem backend_selection_witness :
    getenv (configurePlatform (fun n =>
      if n = "RMG_WAYLAND" then some "0" else if n = "QT_QPA_PLATFORM" then some "wayland"
      else none)) "QT_QPA_PLATFORM" = some "xcb" :=
  (backend_selection _).2.1 (by decide)

/-- C9: in a build that has the path options, for each of the four overrides
and every command line `main` accepts, the setter of the override is called
exactly once, with the option value, when the value is not empty, and is not
called when the value is empty or the option is absent. The calls of a setter
are the same in any two runs that agree on the value of its own option,
whatever the other three options hold. -/
theorem path_overrides (o : PathOverride) (b : Build) (c : Collaborators) (argv : List String)
    (env : Env) (parser : QCommandLineParser) (hb : b.portable = false)
    (hp : (mainParser b).process argv = .ok parser) :
    (main b c argv env).trace.filter o.isCall =
      (if parser.value o.optionName = "" then []
       else [o.setter (parser.value o.optionName)]) ∧
    (parser.isSet o.optionName = false → (main b c argv env).trace.filter o.isCall = []) ∧
    (∀ (b2 : Build) (c2 : Collaborators) (argv2 : List String) (env2 : Env)
      (parser2 : QCommandLineParser), b2.portable = false →
      (mainParser b2).process argv2 = .ok parser2 →
      parser2.value o.optionName = parser.value o.optionName →
      (main b2 c2 argv2 env2).trace.filter o.isCall =
        (main b c argv env).trace.filter o.isCall) := by
  have key : ∀ (b : Build) (c : Collaborators) (argv : List String) (env : Env)
      (parser : QCommandLineParser), b.portable = false →
      (mainParser b).process argv = .ok parser →
      (main b c argv env).trace.filter o.isCall =
        (if parser.value o.optionName = "" then []
         else [o.setter (parser.value o.optionName)]) := by
    intro b c argv env parser hb hp
    rw [filter_isCall_of_ok o b c argv env parser hp,
      filter_isCall_pathOverrideCalls o b parser hb]
  refine ⟨key b c argv env parser hb hp, ?_, ?_⟩
  · intro hset
    rw [key b c argv env parser hb hp, value_empty_of_not_given b argv parser hp _ hset]
    rfl
  · intro b2 c2 argv2 env2 parser2 hb2 hp2 hv
    rw [key b c argv env parser hb hp, key b2 c2 argv2 env2 parser2 hb2 hp2, hv]

/-- C9 on the run `RMG --lib-path /x --core-path=`, for the library path. -/
theorem path_overrides_witness :
    (main ⟨false, false⟩ workingInit ["RMG", "--lib-path", "/x", "--core-path="]
        (fun _ => none)).trace.filter PathOverride.library.isCall =
      [Event.CoreSetLibraryPathOverride "/x"] :=
  (path_overrides .library ⟨false, false⟩ workingInit ["RMG", "--lib-path", "/x", "--core-path="]
    (fun _ => none) _ rfl rfl).1

/-- C10: for every initial environment, a `QT_VULKAN_LIB` that is already set
keeps its value through the platform configuration, an unset one becomes
"libvulkan.so.1", and every variable other than `QT_QPA_PLATFORM` and
`QT_VULKAN_LIB` has the value it had before, also in the environment a run of
`main` leaves, in every build. -/
theorem vulkan_hint (env : Env) :
    (∀ v, getenv env "QT_VULKAN_LIB" = some v →
      getenv (configurePlatform env) "QT_VULKAN_LIB" = some v) ∧
    (getenv env "QT_VULKAN_LIB" = none →
      getenv (configurePlatform env) "QT_VULKAN_LIB" = some "libvulkan.so.1") ∧
    (∀ name, name ≠ "QT_QPA_PLATFORM" → name ≠ "QT_VULKAN_LIB" →
      getenv (configurePlatform env) name = getenv env name) ∧
    (∀ (b : Build) (c : Collaborators) (argv : List String) (name : String),
      name ≠ "QT_QPA_PLATFORM" → name ≠ "QT_VULKAN_LIB" →
      getenv (main b c argv env).env name = getenv env name) := by
  have hne : ("QT_VULKAN_LIB" : String) ≠ "QT_QPA_PLATFORM" := by decide
  have frame : ∀ name, name ≠ "QT_QPA_PLATFORM" → name ≠ "QT_VULKAN_LIB" →
      getenv (configurePlatform env) name = getenv env name := by
    intro name h1 h2
    unfold configurePlatform
    cases hw : getenv env "RMG_WAYLAND" with
    | none => simp [setenv, getenv, h1, h2]
    | some v => by_cases hv : v = "1" <;> simp [setenv, getenv, h1, h2, hv]
  have platform : ∀ value, getenv (setenv env "QT_QPA_PLATFORM" value true) "QT_VULKAN_LIB"
      = getenv env "QT_VULKAN_LIB" := by
    intro value
    simp [setenv, getenv, hne]
  have hint : ∀ e : Env, getenv (setenv e "QT_VULKAN_LIB" "libvulkan.so.1" false) "QT_VULKAN_LIB"
      = some ((getenv e "QT_VULKAN_LIB").getD "libvulkan.so.1") := by
    intro e
    cases he : e "QT_VULKAN_LIB" <;> simp [setenv, getenv, he]
  have key : getenv (configurePlatform env) "QT_VULKAN_LIB" =
      some ((getenv env "QT_VULKAN_LIB").getD "libvulkan.so.1") := by
    unfold configurePlatform
    cases hw : getenv env "RMG_WAYLAND" with
    | none => simp only [hint, platform]
    | some v => by_cases hv : v = "1" <;> simp only [hv, if_true, if_false, hint, platform]
  refine ⟨?_, ?_, frame, ?_⟩
  · intro v hv
    rw [key, hv]; rfl
  · intro hv
    rw [key, hv]; rfl
  · intro b c argv name h1 h2
    rw [main_env]
    cases b.win32
    · exact frame name h1 h2
    · rfl

/-- C10 on an environment where the caller set `QT_VULKAN_LIB`. -/
theorem vulkan_hint_witness :
    getenv (configurePlatform (fun n => if n = "QT_VULKAN_LIB" then some "/opt/libvulkan.so" else none))
      "QT_VULKAN_LIB" = some "/opt/libvulkan.so" :=
  (vulkan_hint _).1 "/opt/libvulkan.so" (by decide)

end RMG
